import Mathlib

/-!
Verification of the session, rate-governance, and audit core of the
agents-protocol SDK, shallowly embedded from the TypeScript sources
(sdk/src/rate-limiter.ts, sdk/src/session.ts, sdk/src/audit.ts).

Times are modelled as integer milliseconds; each method call takes the
current clock reading as an explicit argument.  JavaScript Maps are
modelled as association lists with unique keys (lookup, replace-or-append
set, delete); JavaScript Sets of strings as duplicate-free lists kept in
insertion order.
-/

namespace AgentsProtocol

/-- Lookup in an association-list model of a JavaScript Map (Map.get). -/
def mapLookup {α : Type} : List (String × α) → String → Option α
  | [], _ => none
  | (k, v) :: rest, key => if k = key then some v else mapLookup rest key

/-- Map.set: replace the value stored at a key, or append a new entry. -/
def mapSet {α : Type} : List (String × α) → String → α → List (String × α)
  | [], key, v => [(key, v)]
  | (k, w) :: rest, key, v =>
    if k = key then (k, v) :: rest else (k, w) :: mapSet rest key v

/-- Map.delete: remove the entry stored at a key. -/
def mapDelete {α : Type} : List (String × α) → String → List (String × α)
  | [], _ => []
  | (k, v) :: rest, key =>
    if k = key then mapDelete rest key else (k, v) :: mapDelete rest key

theorem mapLookup_mapSet_self {α : Type} (m : List (String × α)) (k : String) (v : α) :
    mapLookup (mapSet m k v) k = some v := by
  induction m with
  | nil => simp [mapSet, mapLookup]
  | cons e rest ih =>
    obtain ⟨k1, w⟩ := e
    by_cases h : k1 = k
    · simp [mapSet, h, mapLookup]
    · simp [mapSet, h, mapLookup, ih]

theorem mapLookup_mapSet_ne {α : Type} (m : List (String × α)) (k k1 : String) (v : α)
    (h : k1 ≠ k) : mapLookup (mapSet m k v) k1 = mapLookup m k1 := by
  have hk : ¬ k = k1 := fun h1 => h h1.symm
  induction m with
  | nil => simp [mapSet, mapLookup, hk]
  | cons e rest ih =>
    obtain ⟨k2, w⟩ := e
    by_cases h2 : k2 = k
    · subst h2
      simp [mapSet, mapLookup, hk]
    · by_cases h3 : k2 = k1
      · subst h3
        simp [mapSet, mapLookup, h2]
      · simp [mapSet, mapLookup, h2, h3, ih]

theorem mapLookup_mapDelete_self {α : Type} (m : List (String × α)) (k : String) :
    mapLookup (mapDelete m k) k = none := by
  induction m with
  | nil => simp [mapDelete, mapLookup]
  | cons e rest ih =>
    obtain ⟨k1, w⟩ := e
    by_cases h : k1 = k <;> simp [mapDelete, mapLookup, h, ih]

theorem mapLookup_mapDelete_ne {α : Type} (m : List (String × α)) (k k1 : String)
    (h : k1 ≠ k) : mapLookup (mapDelete m k) k1 = mapLookup m k1 := by
  have hk : ¬ k = k1 := fun h1 => h h1.symm
  induction m with
  | nil => simp [mapDelete]
  | cons e rest ih =>
    obtain ⟨k2, w⟩ := e
    by_cases h2 : k2 = k
    · subst h2
      simp [mapDelete, mapLookup, hk, ih]
    · by_cases h3 : k2 = k1
      · subst h3
        simp [mapDelete, mapLookup, h2, ih]
      · simp [mapDelete, mapLookup, h2, h3, ih]

/-- Result record of RateLimiter.checkRateLimit.  The resetAt field is an
Option: in the deny branch the source reads timestamps[0] + windowMs, and
timestamps[0] is undefined when the surviving window is empty (which can
only happen when limit = 0). -/
structure RateLimitResult where
  allowed : Bool
  remaining : Nat
  resetAt : Option Int
deriving DecidableEq

/-- State of RateLimiter (sdk/src/rate-limiter.ts): a per-key window of
request timestamps plus the fixed window length (60000 ms in the source,
kept as a field). -/
structure RateLimiter where
  windows : List (String × List Int)
  windowMs : Int
deriving DecidableEq

/-- Timestamps surviving the sliding-window filter (rate-limiter.ts line 24:
keep every t with t > now - windowMs). -/
def survivors (ts : List Int) (now windowMs : Int) : List Int :=
  ts.filter (fun t => decide (now - windowMs < t))

/-- RateLimiter.checkRateLimit (rate-limiter.ts lines 14-41).  The source
first replaces the key's stored timestamps with the surviving ones, then
either denies (count at or above the limit) or admits and appends now. -/
def checkRateLimit (rl : RateLimiter) (key : String) (limit : Nat) (now : Int) :
    RateLimitResult × RateLimiter :=
  let ts := (mapLookup rl.windows key).getD []
  let surv := survivors ts now rl.windowMs
  if limit ≤ surv.length then
    ({ allowed := false, remaining := 0,
       resetAt := surv.head?.map (fun t => t + rl.windowMs) },
     { rl with windows := mapSet rl.windows key surv })
  else
    ({ allowed := true, remaining := limit - (surv.length + 1),
       resetAt := some (now + rl.windowMs) },
     { rl with windows := mapSet rl.windows key (surv ++ [now]) })

/-- Iterate n successive calls to checkRateLimit on one key and limit at a
fixed clock reading, collecting the results in order. -/
def iterCalls (rl : RateLimiter) (key : String) (limit : Nat) (now : Int) :
    Nat → List RateLimitResult × RateLimiter
  | 0 => ([], rl)
  | n + 1 =>
    let step := checkRateLimit rl key limit now
    let rest := iterCalls step.2 key limit now n
    (step.1 :: rest.1, rest.2)

theorem survivors_replicate (j : Nat) (now W : Int) (hW : 0 < W) :
    survivors (List.replicate j now) now W = List.replicate j now := by
  apply List.filter_eq_self.mpr
  intro a ha
  rw [List.eq_of_mem_replicate ha]
  simpa using by omega

theorem checkRateLimit_replicate_lt (rl : RateLimiter) (key : String) (L j : Nat)
    (now : Int) (hW : 0 < rl.windowMs)
    (hj : (mapLookup rl.windows key).getD [] = List.replicate j now)
    (hcase : j < L) :
    checkRateLimit rl key L now =
      ({ allowed := true, remaining := L - (j + 1),
         resetAt := some (now + rl.windowMs) },
       { rl with windows := mapSet rl.windows key (List.replicate (j + 1) now) }) := by
  rw [checkRateLimit]
  simp only [hj, survivors_replicate j now rl.windowMs hW, List.length_replicate]
  rw [if_neg (by omega), ← List.replicate_succ']

theorem checkRateLimit_replicate_ge (rl : RateLimiter) (key : String) (L j : Nat)
    (now : Int) (hW : 0 < rl.windowMs)
    (hj : (mapLookup rl.windows key).getD [] = List.replicate j now)
    (h1 : 1 ≤ j) (hcase : L ≤ j) :
    checkRateLimit rl key L now =
      ({ allowed := false, remaining := 0, resetAt := some (now + rl.windowMs) },
       { rl with windows := mapSet rl.windows key (List.replicate j now) }) := by
  rw [checkRateLimit]
  simp only [hj, survivors_replicate j now rl.windowMs hW, List.length_replicate]
  rw [if_pos (by omega)]
  have hrep : List.replicate j now = now :: List.replicate (j - 1) now := by
    cases j with
    | zero => omega
    | succ m => simp [List.replicate_succ]
  rw [hrep]
  simp

theorem iterCalls_replicate (key : String) (L : Nat) (now : Int) :
    ∀ (n j : Nat) (rl : RateLimiter), 0 < rl.windowMs →
      (mapLookup rl.windows key).getD [] = List.replicate j now →
      j ≤ L → 1 ≤ L →
      (iterCalls rl key L now n).1 =
        (List.range n).map (fun i =>
          if j + i < L then
            { allowed := true, remaining := L - (j + i + 1),
              resetAt := some (now + rl.windowMs) }
          else
            { allowed := false, remaining := 0,
              resetAt := some (now + rl.windowMs) }) := by
  intro n
  induction n with
  | zero => intro j rl _ _ _ _; simp [iterCalls]
  | succ n ih =>
    intro j rl hW hj hjL hL
    rw [iterCalls, List.range_succ_eq_map, List.map_cons, List.map_map]
    by_cases hcase : j < L
    · have hstep := checkRateLimit_replicate_lt rl key L j now hW hj hcase
      refine congrArg₂ List.cons ?_ ?_
      · rw [hstep]
        simp [hcase]
      · rw [hstep]
        dsimp only
        rw [ih (j + 1)
            { rl with windows := mapSet rl.windows key (List.replicate (j + 1) now) }
            hW (by rw [mapLookup_mapSet_self]; rfl) (by omega) hL]
        apply List.map_congr_left
        intro i _
        simp only [Function.comp_apply, Nat.succ_eq_add_one]
        have e1 : j + (i + 1) = j + 1 + i := by omega
        rw [e1]
    · have hstep := checkRateLimit_replicate_ge rl key L j now hW hj (by omega) (by omega)
      refine congrArg₂ List.cons ?_ ?_
      · rw [hstep]
        simp [hcase]
      · rw [hstep]
        dsimp only
        rw [ih j
            { rl with windows := mapSet rl.windows key (List.replicate j now) }
            hW (by rw [mapLookup_mapSet_self]; rfl) hjL hL]
        apply List.map_congr_left
        intro i _
        simp only [Function.comp_apply, Nat.succ_eq_add_one]
        rw [if_neg (by omega), if_neg (by omega)]

/-- C6: checkRateLimit first discards timestamps outside the trailing window;
if the surviving count is at least the limit it denies with remaining 0 and
resetAt the oldest surviving timestamp plus windowMs, recording only the
filtered window (the call itself is not recorded); otherwise it admits,
appends now, and returns resetAt = now + windowMs and remaining = limit minus
the count after the append (truncated subtraction, so never below 0).
Consequently, on a fresh key exactly limit calls within one window are
admitted — the i-th with remaining = limit - (i+1), decreasing monotonically
to 0 — and every further call in the window is denied. -/
theorem checkRateLimit_spec (rl : RateLimiter) (key : String) (L n : Nat) (now : Int)
    (hW : 0 < rl.windowMs) (hfresh : mapLookup rl.windows key = none) (hL : 1 ≤ L) :
    (∀ (st : RateLimiter) (k : String) (lim : Nat) (t : Int),
        (lim ≤ (survivors ((mapLookup st.windows k).getD []) t st.windowMs).length →
          checkRateLimit st k lim t =
            ({ allowed := false, remaining := 0,
               resetAt := (survivors ((mapLookup st.windows k).getD [])
                 t st.windowMs).head?.map (fun u => u + st.windowMs) },
             RateLimiter.mk
               (mapSet st.windows k
                 (survivors ((mapLookup st.windows k).getD []) t st.windowMs))
               st.windowMs)) ∧
        ((survivors ((mapLookup st.windows k).getD []) t st.windowMs).length < lim →
          checkRateLimit st k lim t =
            ({ allowed := true,
               remaining := lim -
                 ((survivors ((mapLookup st.windows k).getD []) t st.windowMs).length + 1),
               resetAt := some (t + st.windowMs) },
             RateLimiter.mk
               (mapSet st.windows k
                 (survivors ((mapLookup st.windows k).getD []) t st.windowMs ++ [t]))
               st.windowMs))) ∧
    (iterCalls rl key L now n).1 =
      (List.range n).map (fun i =>
        if i < L then
          { allowed := true, remaining := L - (i + 1),
            resetAt := some (now + rl.windowMs) }
        else
          { allowed := false, remaining := 0,
            resetAt := some (now + rl.windowMs) }) := by
  constructor
  · intro st k lim t
    constructor
    · intro hge
      simp only [checkRateLimit]
      rw [if_pos hge]
    · intro hlt
      simp only [checkRateLimit]
      rw [if_neg (by omega)]
  · have h := iterCalls_replicate key L now n 0 rl hW (by rw [hfresh]; rfl) (by omega) hL
    simpa using h

/-- Witness for C6: a fresh limiter at limit 2 admits two calls with
remaining 1 then 0 and denies the third. -/
theorem checkRateLimit_spec_witness :
    ((0 : Int) < (RateLimiter.mk [] 60000).windowMs ∧
     mapLookup (RateLimiter.mk [] 60000).windows "agent" = none ∧ 1 ≤ 2) ∧
    (iterCalls (RateLimiter.mk [] 60000) "agent" 2 0 3).1 =
      (List.range 3).map (fun i =>
        if i < 2 then
          { allowed := true, remaining := 2 - (i + 1),
            resetAt := some ((0 : Int) + (RateLimiter.mk [] 60000).windowMs) }
        else
          { allowed := false, remaining := 0,
            resetAt := some ((0 : Int) + (RateLimiter.mk [] 60000).windowMs) }) :=
  ⟨⟨by decide, rfl, by decide⟩,
   (checkRateLimit_spec (RateLimiter.mk [] 60000) "agent" 2 3 0 (by decide) rfl
     (by decide)).2⟩

/-- C10: whenever the deny branch of checkRateLimit is taken with limit ≥ 1,
the surviving timestamp list is non-empty, so the read of the oldest
surviving timestamp used for resetAt is in bounds (resetAt is some in this
total embedding); the precondition limit ≥ 1 is necessary — with limit = 0
and an empty window the deny branch is reached with no surviving timestamp
to index (resetAt is none). -/
theorem checkRateLimit_deny_inbounds :
    (∀ (st : RateLimiter) (k : String) (lim : Nat) (t : Int),
        1 ≤ lim →
        lim ≤ (survivors ((mapLookup st.windows k).getD []) t st.windowMs).length →
        survivors ((mapLookup st.windows k).getD []) t st.windowMs ≠ [] ∧
        ((checkRateLimit st k lim t).1.resetAt).isSome = true) ∧
    ((checkRateLimit (RateLimiter.mk [] 60000) "agent" 0 0).1.allowed = false ∧
     survivors ((mapLookup (RateLimiter.mk [] 60000).windows "agent").getD []) 0
       (RateLimiter.mk [] 60000).windowMs = [] ∧
     (checkRateLimit (RateLimiter.mk [] 60000) "agent" 0 0).1.resetAt = none) := by
  constructor
  · intro st k lim t h1 hge
    have hne : survivors ((mapLookup st.windows k).getD []) t st.windowMs ≠ [] := by
      intro hnil
      rw [hnil] at hge
      simp at hge
      omega
    refine ⟨hne, ?_⟩
    simp only [checkRateLimit]
    rw [if_pos hge]
    dsimp only
    cases hs : survivors ((mapLookup st.windows k).getD []) t st.windowMs with
    | nil => exact absurd hs hne
    | cons a rest => simp
  · exact ⟨by decide, by decide, by decide⟩

/-- Witness for C10: a window holding one surviving timestamp at limit 1
takes the deny branch with the oldest-timestamp read in bounds. -/
theorem checkRateLimit_deny_inbounds_witness :
    (1 ≤ 1 ∧
     1 ≤ (survivors ((mapLookup (RateLimiter.mk [("agent", [5])] 60000).windows
       "agent").getD []) 10 (RateLimiter.mk [("agent", [5])] 60000).windowMs).length) ∧
    (survivors ((mapLookup (RateLimiter.mk [("agent", [5])] 60000).windows
       "agent").getD []) 10 (RateLimiter.mk [("agent", [5])] 60000).windowMs ≠ [] ∧
     ((checkRateLimit (RateLimiter.mk [("agent", [5])] 60000) "agent" 1 10).1.resetAt).isSome
       = true) :=
  ⟨⟨by decide, by decide⟩,
   checkRateLimit_deny_inbounds.1 (RateLimiter.mk [("agent", [5])] 60000) "agent" 1 10
     (by decide) (by decide)⟩

/-- Session record (sdk/src/types.ts SessionData as populated by
session.ts).  The cartItems payload is opaque to this core — owned by the
capability handlers and always initialized empty — and is omitted. -/
structure SessionData where
  sessionToken : String
  siteId : String
  capabilities : List String
  expiresAt : Int
  createdAt : Int
  ip : Option String
deriving DecidableEq

/-- State of SessionManager (sdk/src/session.ts): the token-indexed session
map, the origin (IP) index mapping an IP to the set of tokens registered
under it, and the constructor configuration (ttl in seconds, maxSessions,
capability names). -/
structure SessionManager where
  sessions : List (String × SessionData)
  sessionsByIp : List (String × List String)
  ttl : Int
  maxSessions : Nat
  capabilityNames : List String
deriving DecidableEq

/-- Set.add on an origin-index entry: insert the token if not present. -/
def setAdd (l : List String) (x : String) : List String :=
  if x ∈ l then l else l ++ [x]

/-- Set.delete on an origin-index entry: remove the token. -/
def setRemove : List String → String → List String
  | [], _ => []
  | y :: rest, x => if y = x then rest else y :: setRemove rest x

theorem setRemove_length (l : List String) (x : String) (h : x ∈ l) :
    (setRemove l x).length + 1 = l.length := by
  induction l with
  | nil => cases h
  | cons y rest ih =>
    by_cases hy : y = x
    · simp [setRemove, hy]
    · have hx : x ∈ rest := by
        cases h with
        | head => exact absurd rfl hy
        | tail _ h2 => exact h2
      simp [setRemove, hy, ih hx]

/-- Distinguished error thrown by createSession at the per-origin cap
(session.ts MaxSessionsError). -/
inductive MaxSessionsError where
  | maxSessions (limit : Nat)
deriving DecidableEq

/-- The cap test of createSession (session.ts lines 24-28): maxSessions > 0,
an IP was supplied, an origin-index entry exists for it, and its size has
reached the cap. -/
def atCap (sm : SessionManager) (ip : Option String) : Bool :=
  decide (0 < sm.maxSessions) &&
    (match ip with
     | some ipv =>
       (match mapLookup sm.sessionsByIp ipv with
        | some ipSet => decide (sm.maxSessions ≤ ipSet.length)
        | none => false)
     | none => false)

namespace SessionManager

/-- SessionManager.createSession (session.ts lines 22-55).  The fresh token
(randomBytes(32).toString in the source) and the clock reading are explicit
arguments; both Date.now() samples of the source occur in one synchronous
block and are modelled as the single reading now. -/
def createSession (sm : SessionManager) (siteId : String) (ip : Option String)
    (now : Int) (token : String) :
    Except MaxSessionsError ((String × Int × List String) × SessionManager) :=
  if atCap sm ip then
    .error (.maxSessions sm.maxSessions)
  else
    let expiresAt := now + sm.ttl * 1000
    let session : SessionData :=
      { sessionToken := token, siteId := siteId,
        capabilities := sm.capabilityNames,
        expiresAt := expiresAt, createdAt := now, ip := ip }
    let sessions1 := mapSet sm.sessions token session
    let byIp1 :=
      match ip with
      | some ipv =>
        mapSet sm.sessionsByIp ipv
          (setAdd ((mapLookup sm.sessionsByIp ipv).getD []) token)
      | none => sm.sessionsByIp
    .ok ((token, expiresAt, session.capabilities),
         { sm with sessions := sessions1, sessionsByIp := byIp1 })

/-- SessionManager.validateSession (session.ts lines 57-65).  On expiry
(now at or past expiresAt) it deletes from the session map only; the
origin index is not touched here. -/
def validateSession (sm : SessionManager) (token : String) (now : Int) :
    Option SessionData × SessionManager :=
  match mapLookup sm.sessions token with
  | none => (none, sm)
  | some s =>
    if s.expiresAt ≤ now then
      (none, { sm with sessions := mapDelete sm.sessions token })
    else
      (some s, sm)

/-- SessionManager.endSession (session.ts lines 67-77): deregister the
token from its origin-index entry (dropping the entry when it empties),
then delete the session. -/
def endSession (sm : SessionManager) (token : String) : SessionManager :=
  let byIp1 :=
    match mapLookup sm.sessions token with
    | some s =>
      (match s.ip with
       | some ipv =>
         (match mapLookup sm.sessionsByIp ipv with
          | some ipSet =>
            let ipSet1 := setRemove ipSet token
            if ipSet1 = [] then mapDelete sm.sessionsByIp ipv
            else mapSet sm.sessionsByIp ipv ipSet1
          | none => sm.sessionsByIp)
       | none => sm.sessionsByIp)
    | none => sm.sessionsByIp
  { sm with sessions := mapDelete sm.sessions token, sessionsByIp := byIp1 }

/-- Body of one iteration of the periodic sweep (session.ts lines 81-91);
note the strict comparison now > expiresAt, unlike validateSession. -/
def cleanupStep (now : Int) (sm : SessionManager) (e : String × SessionData) :
    SessionManager :=
  if e.2.expiresAt < now then
    let byIp1 :=
      match e.2.ip with
      | some ipv =>
        (match mapLookup sm.sessionsByIp ipv with
         | some ipSet =>
           let ipSet1 := setRemove ipSet e.1
           if ipSet1 = [] then mapDelete sm.sessionsByIp ipv
           else mapSet sm.sessionsByIp ipv ipSet1
         | none => sm.sessionsByIp)
      | none => sm.sessionsByIp
    { sm with sessions := mapDelete sm.sessions e.1, sessionsByIp := byIp1 }
  else sm

/-- SessionManager.cleanup (session.ts lines 79-93): sweep over the entries
present when the pass starts. -/
def cleanup (sm : SessionManager) (now : Int) : SessionManager :=
  sm.sessions.foldl (cleanupStep now) sm

end SessionManager

/-- The claim's notion of a live session under an origin: present in the
session map, registered to that origin, and unexpired at the given time. -/
def liveSessionCount (sm : SessionManager) (ipv : String) (now : Int) : Nat :=
  (sm.sessions.filter (fun e =>
    decide (e.2.ip = some ipv) && decide (now < e.2.expiresAt))).length

/-- Empty manager with TTL 0 seconds and a per-origin cap of one session. -/
def smTtl0 : SessionManager := SessionManager.mk [] [] 0 1 []

/-- The state after creating token T for origin 1.2.3.4 at time 1000 on
smTtl0: the session expired immediately (TTL 0). -/
def smOne : SessionManager :=
  SessionManager.mk
    [("T", SessionData.mk "T" "site" [] 1000 1000 (some "1.2.3.4"))]
    [("1.2.3.4", ["T"])] 0 1 []

/-- C4 counterexample: for the expired session T (TTL 0) under origin
1.2.3.4, validateSession returns null and deletes the session-map entry,
but the origin-index entry survives — contradicting the claim that
validation of an expired session also removes its entry from the origin
(IP) index. -/
theorem validateSession_ip_counterexample :
    SessionManager.createSession smTtl0 "site" (some "1.2.3.4") 1000 "T" =
      .ok (("T", 1000, []), smOne) ∧
    (SessionManager.validateSession smOne "T" 1000).1 = none ∧
    mapLookup (SessionManager.validateSession smOne "T" 1000).2.sessions "T" = none ∧
    mapLookup (SessionManager.validateSession smOne "T" 1000).2.sessionsByIp "1.2.3.4"
      = some ["T"] := by
  refine ⟨by rfl, by decide, by decide, by decide⟩

/-- C4 (amended): validateSession(token) returns null when the token is not
in the session map; when the session exists and now ≥ expiresAt it deletes
the session from the session map — leaving the origin-index entry in place
for endSession or the periodic sweep to remove — and returns null;
otherwise it returns the live session unchanged.  A session created with
TTL = 0 fails validation on the very next check. -/
theorem validateSession_spec (sm : SessionManager) (token : String) (now : Int) :
    (mapLookup sm.sessions token = none →
       SessionManager.validateSession sm token now = (none, sm)) ∧
    (∀ s, mapLookup sm.sessions token = some s → s.expiresAt ≤ now →
       SessionManager.validateSession sm token now =
         (none, SessionManager.mk (mapDelete sm.sessions token) sm.sessionsByIp
           sm.ttl sm.maxSessions sm.capabilityNames) ∧
       (SessionManager.validateSession sm token now).2.sessionsByIp = sm.sessionsByIp) ∧
    (∀ s, mapLookup sm.sessions token = some s → now < s.expiresAt →
       SessionManager.validateSession sm token now = (some s, sm)) ∧
    (∀ siteId ip r sm1, sm.ttl = 0 →
       SessionManager.createSession sm siteId ip now token = .ok (r, sm1) →
       ∀ now1, now ≤ now1 →
         (SessionManager.validateSession sm1 token now1).1 = none) := by
  refine ⟨?_, ?_, ?_, ?_⟩
  · intro h
    simp [SessionManager.validateSession, h]
  · intro s hs hexp
    refine ⟨?_, ?_⟩ <;> simp [SessionManager.validateSession, hs, hexp]
  · intro s hs hlt
    have hne : ¬ s.expiresAt ≤ now := by omega
    simp [SessionManager.validateSession, hs, hne]
  · intro siteId ip r sm1 httl hok now1 hnow
    have hle : (SessionData.mk token siteId sm.capabilityNames
        (now + sm.ttl * 1000) now ip).expiresAt ≤ now1 := by
      simp [httl]
      omega
    cases ip with
    | none =>
      by_cases hcap : atCap sm none
      · simp [SessionManager.createSession, hcap] at hok
      · simp [SessionManager.createSession, hcap] at hok
        have hlk : mapLookup sm1.sessions token = some
            (SessionData.mk token siteId sm.capabilityNames
              (now + sm.ttl * 1000) now none) := by
          rw [← hok.2]
          exact mapLookup_mapSet_self sm.sessions token _
        simp [SessionManager.validateSession, hlk, hle]
    | some ipv =>
      by_cases hcap : atCap sm (some ipv)
      · simp [SessionManager.createSession, hcap] at hok
      · simp [SessionManager.createSession, hcap] at hok
        have hlk : mapLookup sm1.sessions token = some
            (SessionData.mk token siteId sm.capabilityNames
              (now + sm.ttl * 1000) now (some ipv)) := by
          rw [← hok.2]
          exact mapLookup_mapSet_self sm.sessions token _
        simp [SessionManager.validateSession, hlk, hle]

/-- Witness for C4: the concrete TTL-0 session T fails validation on the
next check. -/
theorem validateSession_spec_witness :
    (smTtl0.ttl = 0 ∧
     SessionManager.createSession smTtl0 "site" (some "1.2.3.4") 1000 "T" =
       .ok (("T", 1000, []), smOne) ∧ (1000 : Int) ≤ 1000) ∧
    (SessionManager.validateSession smOne "T" 1000).1 = none :=
  ⟨⟨rfl, by rfl, by decide⟩,
   (validateSession_spec smTtl0 "T" 1000).2.2.2 "site" (some "1.2.3.4")
     ("T", 1000, []) smOne rfl (by rfl) 1000 (by decide)⟩

/-- C5 counterexample: at time 2000 origin 1.2.3.4 holds no live (unexpired,
not ended) session — its only session expired at 1000 — yet createSession
with cap 1 still throws MaxSessionsError, because the expired session is
still registered in the origin index.  This refutes the claim that the
error is raised only when the live-session count already equals the cap. -/
theorem createSession_cap_counterexample :
    liveSessionCount smOne "1.2.3.4" 2000 = 0 ∧
    smOne.maxSessions = 1 ∧
    SessionManager.createSession smOne "site" (some "1.2.3.4") 2000 "U" =
      .error (.maxSessions 1) := by
  refine ⟨by decide, rfl, by rfl⟩

theorem mem_setAdd_self (l : List String) (x : String) : x ∈ setAdd l x := by
  by_cases h : x ∈ l <;> simp [setAdd, h]

theorem endSession_sessions (sm : SessionManager) (token : String) :
    (SessionManager.endSession sm token).sessions = mapDelete sm.sessions token := rfl

theorem endSession_maxSessions (sm : SessionManager) (token : String) :
    (SessionManager.endSession sm token).maxSessions = sm.maxSessions := rfl

theorem endSession_frees_slot (sm : SessionManager) (token ipv : String)
    (s : SessionData) (ipSet : List String)
    (hs : mapLookup sm.sessions token = some s) (hip : s.ip = some ipv)
    (hbyip : mapLookup sm.sessionsByIp ipv = some ipSet) (hmem : token ∈ ipSet) :
    ((mapLookup (SessionManager.endSession sm token).sessionsByIp ipv).getD []).length + 1
      = ipSet.length := by
  have hlen := setRemove_length ipSet token hmem
  simp only [SessionManager.endSession, hs, hip, hbyip]
  by_cases hnil : setRemove ipSet token = []
  · rw [if_pos hnil]
    rw [mapLookup_mapDelete_self]
    rw [hnil] at hlen
    simp only [List.length_nil] at hlen
    simp only [Option.getD_none, List.length_nil]
    omega
  · rw [if_neg hnil]
    rw [mapLookup_mapSet_self]
    simpa using hlen

/-- C5 (amended): with maxSessions = N > 0 and an origin supplied,
createSession throws the distinguished MaxSessionsError iff the number of
tokens currently registered under that origin in the origin index has
reached N; the registered count can exceed the number of live (unexpired,
not ended) sessions, because expiry detected by validateSession deregisters
only the session-map entry, not the origin-index entry.  Below the cap it
allocates the fresh token, registers it under the origin, and returns it.
Ending a registered session frees exactly one slot, and when the origin sat
exactly at the cap the next createSession for it succeeds. -/
theorem createSession_cap_spec (sm : SessionManager) (siteId ipv token : String)
    (now : Int) (hN : 0 < sm.maxSessions) :
    (sm.maxSessions ≤ ((mapLookup sm.sessionsByIp ipv).getD []).length →
       SessionManager.createSession sm siteId (some ipv) now token =
         .error (.maxSessions sm.maxSessions)) ∧
    (((mapLookup sm.sessionsByIp ipv).getD []).length < sm.maxSessions →
       ∃ sm1,
         SessionManager.createSession sm siteId (some ipv) now token =
           .ok ((token, now + sm.ttl * 1000, sm.capabilityNames), sm1) ∧
         token ∈ (mapLookup sm1.sessionsByIp ipv).getD [] ∧
         mapLookup sm1.sessions token = some
           (SessionData.mk token siteId sm.capabilityNames
             (now + sm.ttl * 1000) now (some ipv))) ∧
    (∀ s ipSet, mapLookup sm.sessions token = some s → s.ip = some ipv →
       mapLookup sm.sessionsByIp ipv = some ipSet → token ∈ ipSet →
       ((mapLookup (SessionManager.endSession sm token).sessionsByIp ipv).getD
         []).length + 1 = ipSet.length) ∧
    (∀ s ipSet, mapLookup sm.sessions token = some s → s.ip = some ipv →
       mapLookup sm.sessionsByIp ipv = some ipSet → token ∈ ipSet →
       ipSet.length = sm.maxSessions →
       ∀ token2, ∃ out,
         SessionManager.createSession (SessionManager.endSession sm token)
           siteId (some ipv) now token2 = .ok out) := by
  refine ⟨?_, ?_, ?_, ?_⟩
  · intro hge
    cases hlk : mapLookup sm.sessionsByIp ipv with
    | none =>
      rw [hlk] at hge
      simp at hge
      omega
    | some ipSet =>
      have hlen : sm.maxSessions ≤ ipSet.length := by
        rw [hlk] at hge
        simpa using hge
      have hcap : atCap sm (some ipv) = true := by
        simp [atCap, hlk, hN, hlen]
      simp [SessionManager.createSession, hcap]
  · intro hlt
    have hcap : atCap sm (some ipv) = false := by
      cases hlk : mapLookup sm.sessionsByIp ipv with
      | none => simp [atCap, hlk]
      | some ipSet =>
        have hlen : ¬ sm.maxSessions ≤ ipSet.length := by
          rw [hlk] at hlt
          simp at hlt
          omega
        simp [atCap, hlk, hlen]
    refine ⟨SessionManager.mk
        (mapSet sm.sessions token
          (SessionData.mk token siteId sm.capabilityNames
            (now + sm.ttl * 1000) now (some ipv)))
        (mapSet sm.sessionsByIp ipv
          (setAdd ((mapLookup sm.sessionsByIp ipv).getD []) token))
        sm.ttl sm.maxSessions sm.capabilityNames, ?_, ?_, ?_⟩
    · simp [SessionManager.createSession, hcap]
    · dsimp only
      rw [mapLookup_mapSet_self]
      exact mem_setAdd_self _ token
    · exact mapLookup_mapSet_self sm.sessions token _
  · intro s ipSet hs hip hbyip hmem
    exact endSession_frees_slot sm token ipv s ipSet hs hip hbyip hmem
  · intro s ipSet hs hip hbyip hmem hcapN token2
    have hreg := endSession_frees_slot sm token ipv s ipSet hs hip hbyip hmem
    have hcap2 : atCap (SessionManager.endSession sm token) (some ipv) = false := by
      cases hlk : mapLookup (SessionManager.endSession sm token).sessionsByIp ipv with
      | none => simp [atCap, hlk]
      | some l2 =>
        have hlen2 : ¬ (SessionManager.endSession sm token).maxSessions ≤ l2.length := by
          rw [hlk] at hreg
          rw [endSession_maxSessions]
          simp at hreg
          omega
        simp [atCap, hlk, hlen2]
    exact ⟨_, by
      rw [SessionManager.createSession,
        if_neg (by simp [hcap2] :
          ¬ atCap (SessionManager.endSession sm token) (some ipv) = true)]⟩

/-- Witness for C5: the origin sitting at the cap (one registered token,
cap 1) makes createSession throw MaxSessionsError. -/
theorem createSession_cap_spec_witness :
    (0 < smOne.maxSessions ∧
     smOne.maxSessions ≤ ((mapLookup smOne.sessionsByIp "1.2.3.4").getD []).length) ∧
    SessionManager.createSession smOne "site" (some "1.2.3.4") 2000 "U" =
      .error (.maxSessions smOne.maxSessions) :=
  ⟨⟨by decide, by decide⟩,
   (createSession_cap_spec smOne "site" "1.2.3.4" "U" 2000 (by decide)).1 (by decide)⟩

theorem cleanupStep_sessions (now : Int) (sm : SessionManager)
    (e : String × SessionData) (t1 : String) :
    mapLookup (SessionManager.cleanupStep now sm e).sessions t1 = none ∨
    mapLookup (SessionManager.cleanupStep now sm e).sessions t1
      = mapLookup sm.sessions t1 := by
  by_cases hc : e.2.expiresAt < now
  · by_cases ht : t1 = e.1
    · left
      rw [ht]
      simp only [SessionManager.cleanupStep, hc, if_pos]
      exact mapLookup_mapDelete_self sm.sessions e.1
    · right
      simp only [SessionManager.cleanupStep, hc, if_pos]
      exact mapLookup_mapDelete_ne sm.sessions e.1 t1 ht
  · right
    simp [SessionManager.cleanupStep, hc]

theorem cleanup_foldl_sessions (now : Int) :
    ∀ (l : List (String × SessionData)) (sm : SessionManager) (t1 : String),
      mapLookup (l.foldl (SessionManager.cleanupStep now) sm).sessions t1 = none ∨
      mapLookup (l.foldl (SessionManager.cleanupStep now) sm).sessions t1
        = mapLookup sm.sessions t1 := by
  intro l
  induction l with
  | nil =>
    intro sm t1
    right
    rfl
  | cons e rest ih =>
    intro sm t1
    rw [List.foldl_cons]
    rcases ih (SessionManager.cleanupStep now sm e) t1 with h | h
    · left
      exact h
    · rcases cleanupStep_sessions now sm e t1 with h2 | h2
      · left
        rw [h, h2]
      · right
        rw [h, h2]

/-- C9: expiresAt is fixed at creation to createdAt + TTL (milliseconds) and
never modified afterwards: validateSession, createSession of another token,
endSession, and the periodic sweep can only remove whole sessions, never
rewrite the fields (token, site, capability snapshot, createdAt, expiresAt)
of a session that survives them — a hard deadline, not a sliding idle
timeout. -/
theorem session_fields_immutable (sm : SessionManager) (now : Int) :
    (∀ siteId ip token r sm1,
       SessionManager.createSession sm siteId ip now token = .ok (r, sm1) →
       ∀ s, mapLookup sm1.sessions token = some s →
         s.createdAt = now ∧ s.expiresAt = s.createdAt + sm.ttl * 1000) ∧
    (∀ token t1 s1, mapLookup sm.sessions t1 = some s1 →
       mapLookup (SessionManager.validateSession sm token now).2.sessions t1 = none ∨
       mapLookup (SessionManager.validateSession sm token now).2.sessions t1 = some s1) ∧
    (∀ siteId ip token r sm1 t1 s1,
       SessionManager.createSession sm siteId ip now token = .ok (r, sm1) →
       t1 ≠ token → mapLookup sm.sessions t1 = some s1 →
       mapLookup sm1.sessions t1 = some s1) ∧
    (∀ token t1 s1, mapLookup sm.sessions t1 = some s1 →
       mapLookup (SessionManager.endSession sm token).sessions t1 = none ∨
       mapLookup (SessionManager.endSession sm token).sessions t1 = some s1) ∧
    (∀ t1 s1, mapLookup sm.sessions t1 = some s1 →
       mapLookup (SessionManager.cleanup sm now).sessions t1 = none ∨
       mapLookup (SessionManager.cleanup sm now).sessions t1 = some s1) := by
  refine ⟨?_, ?_, ?_, ?_, ?_⟩
  · intro siteId ip token r sm1 hok s hlks
    cases ip with
    | none =>
      by_cases hcap : atCap sm none
      · simp [SessionManager.createSession, hcap] at hok
      · simp [SessionManager.createSession, hcap] at hok
        rw [← hok.2, mapLookup_mapSet_self] at hlks
        obtain rfl := Option.some.inj hlks
        simp
    | some ipv =>
      by_cases hcap : atCap sm (some ipv)
      · simp [SessionManager.createSession, hcap] at hok
      · simp [SessionManager.createSession, hcap] at hok
        rw [← hok.2, mapLookup_mapSet_self] at hlks
        obtain rfl := Option.some.inj hlks
        simp
  · intro token t1 s1 h1
    cases hl : mapLookup sm.sessions token with
    | none =>
      right
      simp [SessionManager.validateSession, hl, h1]
    | some s =>
      by_cases hexp : s.expiresAt ≤ now
      · by_cases ht : t1 = token
        · left
          subst ht
          simp only [SessionManager.validateSession, hl, hexp, if_pos]
          exact mapLookup_mapDelete_self sm.sessions t1
        · right
          simp only [SessionManager.validateSession, hl, hexp, if_pos]
          rw [mapLookup_mapDelete_ne sm.sessions token t1 ht]
          exact h1
      · right
        simp [SessionManager.validateSession, hl, hexp, h1]
  · intro siteId ip token r sm1 t1 s1 hok ht h1
    cases ip with
    | none =>
      by_cases hcap : atCap sm none
      · simp [SessionManager.createSession, hcap] at hok
      · simp [SessionManager.createSession, hcap] at hok
        rw [← hok.2, mapLookup_mapSet_ne sm.sessions token t1 _ ht]
        exact h1
    | some ipv =>
      by_cases hcap : atCap sm (some ipv)
      · simp [SessionManager.createSession, hcap] at hok
      · simp [SessionManager.createSession, hcap] at hok
        rw [← hok.2, mapLookup_mapSet_ne sm.sessions token t1 _ ht]
        exact h1
  · intro token t1 s1 h1
    rw [endSession_sessions]
    by_cases ht : t1 = token
    · left
      subst ht
      exact mapLookup_mapDelete_self sm.sessions t1
    · right
      rw [mapLookup_mapDelete_ne sm.sessions token t1 ht]
      exact h1
  · intro t1 s1 h1
    rcases cleanup_foldl_sessions now sm.sessions sm t1 with h | h
    · left
      show mapLookup (List.foldl (SessionManager.cleanupStep now) sm sm.sessions).sessions
        t1 = none
      exact h
    · right
      show mapLookup (List.foldl (SessionManager.cleanupStep now) sm sm.sessions).sessions
        t1 = some s1
      rw [h]
      exact h1

/-- Witness for C9: creating session T on the TTL-0 manager yields a
session whose expiry equals its creation time plus the TTL. -/
theorem session_fields_immutable_witness :
    SessionManager.createSession smTtl0 "site" (some "1.2.3.4") 1000 "T" =
      .ok (("T", 1000, []), smOne) ∧
    mapLookup smOne.sessions "T" =
      some (SessionData.mk "T" "site" [] 1000 1000 (some "1.2.3.4")) ∧
    ((SessionData.mk "T" "site" [] 1000 1000 (some "1.2.3.4")).createdAt = 1000 ∧
     (SessionData.mk "T" "site" [] 1000 1000 (some "1.2.3.4")).expiresAt =
       (SessionData.mk "T" "site" [] 1000 1000 (some "1.2.3.4")).createdAt +
         smTtl0.ttl * 1000) :=
  ⟨by rfl, by rfl,
   (session_fields_immutable smTtl0 1000).1 "site" (some "1.2.3.4") "T"
     ("T", 1000, []) smOne (by rfl)
     (SessionData.mk "T" "site" [] 1000 1000 (some "1.2.3.4")) (by rfl)⟩

/-- Event types logged by the RER runtime, as observed in the AuditManager
test suite: RunStarted, then PolicyEvaluated + ToolCalled + ToolReturned
per allowed call, then RunEnded. -/
inductive RtEventType where
  | runStarted
  | policyEvaluated
  | toolCalled
  | toolReturned
  | runEnded
deriving DecidableEq

/-- A hash-chained runtime event: type, tool name, payload (tool inputs and
outputs are modelled as numbers), the content hash, and the parent hash
(null for the first event of a chain). -/
structure RtEvent where
  eventType : RtEventType
  tool : String
  payload : Nat
  eventHash : Nat
  parentEventHash : Option Nat
deriving DecidableEq

/-- Shape of the content-hash primitive over an event body and parent hash.
The spec treats hashing as an abstract deterministic primitive, so the
model is parameterized over it. -/
def HashFn : Type := RtEventType → String → Nat → Option Nat → Nat

/-- Shape of the chain-level signing primitive, likewise abstract. -/
def SignFn : Type := List RtEvent → Nat

/-- Modelled from the spec: the @rer/runtime event log (an external
dependency of audit.ts, present here only through its type stubs) appends
an event whose parent hash is the content hash of the current last event
(null on an empty chain) and whose own content hash is computed over the
body and the parent hash. -/
def appendEvent (hf : HashFn) (es : List RtEvent) (ty : RtEventType)
    (tool : String) (payload : Nat) : List RtEvent :=
  let parent := es.getLast?.map (fun e => e.eventHash)
  es ++ [RtEvent.mk ty tool payload (hf ty tool payload parent) parent]

/-- Modelled from the spec: the live state of one @rer/runtime instance —
the envelope's capability allow-list (permissions.tools.allow, fixed by
startSession) and the event chain. -/
structure RtState where
  allowList : List String
  events : List RtEvent
deriving DecidableEq

/-- A sealed artifact: the complete ordered event list plus the chain-level
signature (RuntimeRunArtifact.events and runtime_signature). -/
structure AuditArtifact where
  events : List RtEvent
  runtimeSignature : Nat
deriving DecidableEq

/-- Errors surfaced by callCapability: the distinguished policy denial
raised by the runtime, or the business handler's own thrown value. -/
inductive CallError where
  | policyDenied
  | handlerFailed (v : Nat)
deriving DecidableEq

/-- State of AuditManager (sdk/src/audit.ts): live sessions, sealed
artifacts, and the pending-handler queues keyed by the string
sessionToken ++ ":" ++ capabilityName.  TTL bookkeeping only drives the
periodic eviction, which no claim involves, and is omitted.  Handlers are
identified by numbers; their behaviour is an environment passed to
callCapability. -/
structure AuditManager where
  sessions : List (String × RtState)
  artifacts : List (String × AuditArtifact)
  pending : List (String × List Nat)
deriving DecidableEq

/-- Character-list core of the startsWith test used by
clearPendingHandlers. -/
def charsHavePre : List Char → List Char → Bool
  | [], _ => true
  | _ :: _, [] => false
  | a :: as, b :: bs => decide (a = b) && charsHavePre as bs

/-- String.startsWith as used at audit.ts line 265. -/
def strHasPre (pre s : String) : Bool := charsHavePre pre.data s.data

theorem charsHavePre_append (l t : List Char) : charsHavePre l (l ++ t) = true := by
  induction l with
  | nil => rfl
  | cons a as ih => simp [charsHavePre, ih]

theorem strHasPre_append (pre rest : String) : strHasPre pre (pre ++ rest) = true := by
  rw [strHasPre, String.data_append]
  exact charsHavePre_append pre.data rest.data

namespace AuditManager

/-- AuditManager.clearPendingHandlers (audit.ts lines 263-269): drop every
pending queue whose key starts with sessionToken ++ ":". -/
def clearPendingHandlers (pending : List (String × List Nat))
    (sessionToken : String) : List (String × List Nat) :=
  pending.filter (fun e => ! strHasPre (sessionToken ++ ":") e.1)

/-- AuditManager.endSession (audit.ts lines 175-202): seal the runtime
(runtime.end appends the RunEnded event), build and sign the artifact,
store it, delete the live session, and purge the token's pending queues.
The buildArtifact failure branch of the source is reachable only when the
external signing primitive throws; the modelled primitive is total, so
sealing always succeeds here. -/
def endSession (hf : HashFn) (sg : SignFn) (am : AuditManager) (token : String) :
    Option AuditArtifact × AuditManager :=
  match mapLookup am.sessions token with
  | none => (none, am)
  | some rt =>
    let events1 := appendEvent hf rt.events .runEnded "" 0
    let artifact := AuditArtifact.mk events1 (sg events1)
    (some artifact,
     AuditManager.mk (mapDelete am.sessions token)
       (mapSet am.artifacts token artifact)
       (clearPendingHandlers am.pending token))

/-- AuditManager.startSession (audit.ts lines 70-127): seal any existing
session under the same token first, then install a fresh runtime whose
envelope allow-list is the capability list; runtime.start logs the
RunStarted event. -/
def startSession (hf : HashFn) (sg : SignFn) (am : AuditManager) (token : String)
    (caps : List String) : AuditManager :=
  let am1 :=
    if (mapLookup am.sessions token).isSome then (endSession hf sg am token).2
    else am
  AuditManager.mk
    (mapSet am1.sessions token
      (RtState.mk caps (appendEvent hf [] .runStarted "" 0)))
    am1.artifacts am1.pending

/-- AuditManager.getArtifact (audit.ts lines 204-206): pure lookup. -/
def getArtifact (am : AuditManager) (token : String) : Option AuditArtifact :=
  mapLookup am.artifacts token

/-- AuditManager.callCapability (audit.ts lines 137-173) together with the
per-capability executor registered at startSession (lines 105-117) and the
runtime's policy gate as the spec describes it: the executor is reached
only when the capability is in the envelope allow-list; a denial raises the
distinguished PolicyDeniedError before any handler runs and records no
event for the capability, and the catch block of callCapability then
shifts the queue head (lines 165-172).  A handler throw is recorded as the
failed return, rethrown by the runtime, and then the same catch block
shifts the queue head once more.  The third result component lists the
handler ids actually invoked during the call, in order. -/
def callCapability (hf : HashFn) (henv : Nat → Except Nat Nat) (am : AuditManager)
    (token cap : String) (payload : Nat) (hid : Nat) :
    Except CallError Nat × AuditManager × List Nat :=
  match mapLookup am.sessions token with
  | none =>
    (match henv hid with
     | .ok v => (.ok v, am, [hid])
     | .error v => (.error (.handlerFailed v), am, [hid]))
  | some rt =>
    let key := token ++ ":" ++ cap
    let q0 := (mapLookup am.pending key).getD []
    let q1 := q0 ++ [hid]
    if cap ∈ rt.allowList then
      let ev1 := appendEvent hf rt.events .policyEvaluated cap payload
      let ev2 := appendEvent hf ev1 .toolCalled cap payload
      match q1 with
      | [] =>
        let ev3 := appendEvent hf ev2 .toolReturned cap 0
        (.ok 0,
         AuditManager.mk (mapSet am.sessions token (RtState.mk rt.allowList ev3))
           am.artifacts (mapSet am.pending key []),
         [])
      | h :: q2 =>
        (match henv h with
         | .ok v =>
           let ev3 := appendEvent hf ev2 .toolReturned cap v
           (.ok v,
            AuditManager.mk (mapSet am.sessions token (RtState.mk rt.allowList ev3))
              am.artifacts (mapSet am.pending key q2),
            [h])
         | .error v =>
           let ev3 := appendEvent hf ev2 .toolReturned cap v
           (.error (.handlerFailed v),
            AuditManager.mk (mapSet am.sessions token (RtState.mk rt.allowList ev3))
              am.artifacts (mapSet am.pending key q2.tail),
            [h]))
    else
      (.error .policyDenied,
       AuditManager.mk am.sessions am.artifacts (mapSet am.pending key q1.tail),
       [])

end AuditManager

/-- One external operation on an AuditManager. -/
inductive AOp where
  | start (token : String) (caps : List String)
  | call (token cap : String) (payload hid : Nat)
  | stop (token : String)
deriving DecidableEq

/-- Apply one operation, threading the state and discarding call results. -/
def applyOp (hf : HashFn) (sg : SignFn) (henv : Nat → Except Nat Nat)
    (am : AuditManager) : AOp → AuditManager
  | .start token caps => AuditManager.startSession hf sg am token caps
  | .call token cap payload hid =>
    (AuditManager.callCapability hf henv am token cap payload hid).2.1
  | .stop token => (AuditManager.endSession hf sg am token).2

/-- The empty state of a freshly constructed AuditManager. -/
def initAudit : AuditManager := AuditManager.mk [] [] []

/-- Run a sequence of operations from the initial state. -/
def runOps (hf : HashFn) (sg : SignFn) (henv : Nat → Except Nat Nat)
    (ops : List AOp) : AuditManager :=
  ops.foldl (applyOp hf sg henv) initAudit

/-- A chain starting from parent hash p: each event carries the running
parent hash and a content hash computed from its body and parent. -/
def ChainedFrom (hf : HashFn) : Option Nat → List RtEvent → Prop
  | _, [] => True
  | p, e :: rest =>
    e.parentEventHash = p ∧ e.eventHash = hf e.eventType e.tool e.payload p ∧
    ChainedFrom hf (some e.eventHash) rest

/-- A full chain: the first event has a null parent hash. -/
def Chained (hf : HashFn) (es : List RtEvent) : Prop := ChainedFrom hf none es

/-- Hash of the chain tip: the last event's content hash, or p on an empty
chain. -/
def lastHash (p : Option Nat) (es : List RtEvent) : Option Nat :=
  match es.getLast? with
  | none => p
  | some e => some e.eventHash

theorem lastHash_cons (p : Option Nat) (e : RtEvent) (es : List RtEvent) :
    lastHash p (e :: es) = lastHash (some e.eventHash) es := by
  cases es with
  | nil => rfl
  | cons f fs =>
    rw [lastHash, lastHash, List.getLast?_cons_cons]
    cases h : (f :: fs).getLast? with
    | none => simp at h
    | some g => rfl

theorem lastHash_none (es : List RtEvent) :
    lastHash none es = es.getLast?.map (fun e => e.eventHash) := by
  cases h : es.getLast? <;> simp [lastHash, h]

theorem chainedFrom_append (hf : HashFn) :
    ∀ (es : List RtEvent) (p : Option Nat), ChainedFrom hf p es →
      ∀ (ty : RtEventType) (tool : String) (payload : Nat),
        ChainedFrom hf p (es ++
          [RtEvent.mk ty tool payload (hf ty tool payload (lastHash p es))
            (lastHash p es)]) := by
  intro es
  induction es with
  | nil =>
    intro p _ ty tool payload
    exact ⟨rfl, rfl, trivial⟩
  | cons e rest ih =>
    intro p hch ty tool payload
    obtain ⟨h1, h2, h3⟩ := hch
    rw [List.cons_append, lastHash_cons]
    exact ⟨h1, h2, ih (some e.eventHash) h3 ty tool payload⟩

theorem chained_appendEvent (hf : HashFn) (es : List RtEvent) (h : Chained hf es)
    (ty : RtEventType) (tool : String) (payload : Nat) :
    Chained hf (appendEvent hf es ty tool payload) := by
  have happ := chainedFrom_append hf es none h ty tool payload
  rw [lastHash_none] at happ
  exact happ

theorem chainedFrom_head (hf : HashFn) (p : Option Nat) (es : List RtEvent)
    (h : ChainedFrom hf p es) :
    ∀ e, es.head? = some e → e.parentEventHash = p := by
  cases es with
  | nil => intro e he; cases he
  | cons f fs =>
    intro e he
    obtain rfl := Option.some.inj he
    exact h.1

theorem chainedFrom_get_succ (hf : HashFn) :
    ∀ (es : List RtEvent) (p : Option Nat), ChainedFrom hf p es →
      ∀ (i : Nat) (hi : i + 1 < es.length),
        (es.get ⟨i + 1, hi⟩).parentEventHash =
          some ((es.get ⟨i, by omega⟩).eventHash) := by
  intro es
  induction es with
  | nil =>
    intro p _ i hi
    simp at hi
  | cons e rest ih =>
    intro p hch i hi
    obtain ⟨h1, h2, h3⟩ := hch
    cases i with
    | zero =>
      cases rest with
      | nil => simp at hi
      | cons f fs => exact h3.1
    | succ j =>
      have hj : j + 1 < rest.length := by
        simp at hi
        omega
      exact ih (some e.eventHash) h3 j hj

/-- The hash-chain property stated over indices, as the spec writes it:
the first event has a null parent hash and each later event's parent hash
equals the previous event's content hash. -/
def HashChainOk (es : List RtEvent) : Prop :=
  (∀ e, es.head? = some e → e.parentEventHash = none) ∧
  (∀ (i : Nat) (hi : i + 1 < es.length),
    (es.get ⟨i + 1, hi⟩).parentEventHash =
      some ((es.get ⟨i, by omega⟩).eventHash))

theorem chained_hashChainOk (hf : HashFn) (es : List RtEvent) (h : Chained hf es) :
    HashChainOk es :=
  ⟨chainedFrom_head hf none es h, chainedFrom_get_succ hf es none h⟩

theorem mapLookup_mem {α : Type} :
    ∀ (l : List (String × α)) (k : String) (v : α),
      mapLookup l k = some v → (k, v) ∈ l := by
  intro l
  induction l with
  | nil => intro k v h; cases h
  | cons e rest ih =>
    intro k v h
    obtain ⟨k1, w⟩ := e
    by_cases hk : k1 = k
    · subst hk
      rw [mapLookup, if_pos rfl] at h
      obtain rfl := Option.some.inj h
      exact List.mem_cons_self _ _
    · rw [mapLookup, if_neg hk] at h
      exact List.mem_cons_of_mem _ (ih k v h)

theorem mem_mapSet {α : Type} :
    ∀ (l : List (String × α)) (k : String) (v : α) (e : String × α),
      e ∈ mapSet l k v → e = (k, v) ∨ e ∈ l := by
  intro l
  induction l with
  | nil =>
    intro k v e h
    rw [mapSet] at h
    simp at h
    left
    exact h
  | cons f rest ih =>
    intro k v e h
    obtain ⟨k1, w⟩ := f
    by_cases hk : k1 = k
    · rw [mapSet, if_pos hk] at h
      rcases List.mem_cons.mp h with h1 | h1
      · left; rw [h1, hk]
      · right; exact List.mem_cons_of_mem _ h1
    · rw [mapSet, if_neg hk] at h
      rcases List.mem_cons.mp h with h1 | h1
      · right; rw [h1]; exact List.mem_cons_self _ _
      · rcases ih k v e h1 with h2 | h2
        · left; exact h2
        · right; exact List.mem_cons_of_mem _ h2

theorem mapLookup_mapSet_cases {α : Type} (m : List (String × α)) (k : String)
    (v : α) (t : String) (w : α) (h : mapLookup (mapSet m k v) t = some w) :
    (t = k ∧ w = v) ∨ (t ≠ k ∧ mapLookup m t = some w) := by
  by_cases ht : t = k
  · subst ht
    rw [mapLookup_mapSet_self] at h
    exact Or.inl ⟨rfl, (Option.some.inj h).symm⟩
  · rw [mapLookup_mapSet_ne m k t v ht] at h
    exact Or.inr ⟨ht, h⟩

theorem mapLookup_mapDelete_some {α : Type} (m : List (String × α)) (k t : String)
    (w : α) (h : mapLookup (mapDelete m k) t = some w) :
    mapLookup m t = some w := by
  by_cases ht : t = k
  · subst ht
    rw [mapLookup_mapDelete_self] at h
    cases h
  · rw [mapLookup_mapDelete_ne m k t ht] at h
    exact h

/-- All pending queues are empty between completed sequential operations. -/
def PendingEmpty (am : AuditManager) : Prop :=
  ∀ e ∈ am.pending, e.2 = ([] : List Nat)

/-- Invariant of reachable AuditManager states: empty pending queues and
hash-chained event lists in every live session and sealed artifact. -/
def AuditInv (hf : HashFn) (am : AuditManager) : Prop :=
  PendingEmpty am ∧
  (∀ t rt, mapLookup am.sessions t = some rt → Chained hf rt.events) ∧
  (∀ t a, mapLookup am.artifacts t = some a → Chained hf a.events)

theorem pendingEmpty_getD (am : AuditManager) (h : PendingEmpty am) (k : String) :
    (mapLookup am.pending k).getD [] = [] := by
  cases hl : mapLookup am.pending k with
  | none => rfl
  | some q =>
    have := h (k, q) (mapLookup_mem am.pending k q hl)
    simpa using this

theorem auditInv_endSession (hf : HashFn) (sg : SignFn) (am : AuditManager)
    (token : String) (h : AuditInv hf am) :
    AuditInv hf (AuditManager.endSession hf sg am token).2 := by
  obtain ⟨hp, hs, ha⟩ := h
  cases hl : mapLookup am.sessions token with
  | none =>
    simp only [AuditManager.endSession, hl]
    exact ⟨hp, hs, ha⟩
  | some rt =>
    simp only [AuditManager.endSession, hl]
    refine ⟨?_, ?_, ?_⟩
    · intro e he
      simp only [AuditManager.clearPendingHandlers] at he
      exact hp e (List.mem_filter.mp he).1
    · intro t rt1 hl1
      exact hs t rt1 (mapLookup_mapDelete_some am.sessions token t rt1 hl1)
    · intro t a hl1
      rcases mapLookup_mapSet_cases am.artifacts token _ t a hl1 with ⟨_, hae⟩ | ⟨_, hl2⟩
      · rw [hae]
        exact chained_appendEvent hf rt.events (hs token rt hl) .runEnded "" 0
      · exact ha t a hl2

theorem auditInv_startSession (hf : HashFn) (sg : SignFn) (am : AuditManager)
    (token : String) (caps : List String) (h : AuditInv hf am) :
    AuditInv hf (AuditManager.startSession hf sg am token caps) := by
  have h1 : AuditInv hf
      (if (mapLookup am.sessions token).isSome then
        (AuditManager.endSession hf sg am token).2
      else am) := by
    split
    · exact auditInv_endSession hf sg am token h
    · exact h
  obtain ⟨hp, hs, ha⟩ := h1
  simp only [AuditManager.startSession]
  refine ⟨hp, ?_, ha⟩
  intro t rt1 hl1
  rcases mapLookup_mapSet_cases _ token _ t rt1 hl1 with ⟨_, hre⟩ | ⟨_, hl2⟩
  · rw [hre]
    exact chained_appendEvent hf [] trivial .runStarted "" 0
  · exact hs t rt1 hl2

theorem auditInv_call (hf : HashFn) (henv : Nat → Except Nat Nat)
    (am : AuditManager) (token cap : String) (payload hid : Nat)
    (h : AuditInv hf am) :
    AuditInv hf (AuditManager.callCapability hf henv am token cap payload hid).2.1 := by
  obtain ⟨hp, hs, ha⟩ := h
  cases hl : mapLookup am.sessions token with
  | none =>
    simp only [AuditManager.callCapability, hl]
    cases henv hid with
    | ok v => exact ⟨hp, hs, ha⟩
    | error v => exact ⟨hp, hs, ha⟩
  | some rt =>
    have hq0 : (mapLookup am.pending (token ++ ":" ++ cap)).getD [] = [] :=
      pendingEmpty_getD am hp _
    have hch : Chained hf rt.events := hs token rt hl
    simp only [AuditManager.callCapability, hl, hq0, List.nil_append]
    by_cases hcap : cap ∈ rt.allowList
    · rw [if_pos hcap]
      cases he : henv hid with
      | ok v =>
        refine ⟨?_, ?_, ha⟩
        · intro e hme
          rcases mem_mapSet _ _ _ e hme with hre | hm
          · simp [hre]
          · exact hp e hm
        · intro t rt1 hl1
          rcases mapLookup_mapSet_cases _ token _ t rt1 hl1 with ⟨_, hre⟩ | ⟨_, hl2⟩
          · rw [hre]
            exact chained_appendEvent hf _
              (chained_appendEvent hf _
                (chained_appendEvent hf _ hch .policyEvaluated cap payload)
                .toolCalled cap payload) .toolReturned cap v
          · exact hs t rt1 hl2
      | error v =>
        refine ⟨?_, ?_, ha⟩
        · intro e hme
          rcases mem_mapSet _ _ _ e hme with hre | hm
          · simp [hre]
          · exact hp e hm
        · intro t rt1 hl1
          rcases mapLookup_mapSet_cases _ token _ t rt1 hl1 with ⟨_, hre⟩ | ⟨_, hl2⟩
          · rw [hre]
            exact chained_appendEvent hf _
              (chained_appendEvent hf _
                (chained_appendEvent hf _ hch .policyEvaluated cap payload)
                .toolCalled cap payload) .toolReturned cap v
          · exact hs t rt1 hl2
    · rw [if_neg hcap]
      refine ⟨?_, hs, ha⟩
      intro e hme
      rcases mem_mapSet _ _ _ e hme with hre | hm
      · simp [hre]
      · exact hp e hm

theorem auditInv_init (hf : HashFn) : AuditInv hf initAudit := by
  refine ⟨?_, ?_, ?_⟩
  · intro e he
    simp [initAudit] at he
  · intro t rt h
    simp [initAudit, mapLookup] at h
  · intro t a h
    simp [initAudit, mapLookup] at h

theorem auditInv_applyOp (hf : HashFn) (sg : SignFn) (henv : Nat → Except Nat Nat)
    (am : AuditManager) (op : AOp) (h : AuditInv hf am) :
    AuditInv hf (applyOp hf sg henv am op) := by
  cases op with
  | start token caps => exact auditInv_startSession hf sg am token caps h
  | call token cap payload hid => exact auditInv_call hf henv am token cap payload hid h
  | stop token => exact auditInv_endSession hf sg am token h

theorem auditInv_runOps (hf : HashFn) (sg : SignFn) (henv : Nat → Except Nat Nat)
    (ops : List AOp) : AuditInv hf (runOps hf sg henv ops) := by
  suffices hgen : ∀ (l : List AOp) (am : AuditManager), AuditInv hf am →
      AuditInv hf (l.foldl (applyOp hf sg henv) am) from
    hgen ops initAudit (auditInv_init hf)
  intro l
  induction l with
  | nil =>
    intro am h
    exact h
  | cons op rest ih =>
    intro am h
    rw [List.foldl_cons]
    exact ih _ (auditInv_applyOp hf sg henv am op h)

theorem mapLookup_filter_key_none {α : Type} (p : String → Bool)
    (l : List (String × α)) (k : String) (hk : p k = false) :
    mapLookup (l.filter (fun e => p e.1)) k = none := by
  induction l with
  | nil => rfl
  | cons e rest ih =>
    obtain ⟨k1, v⟩ := e
    by_cases hp : p k1 = true
    · rw [List.filter_cons_of_pos]
      · have hne : ¬ k1 = k := by
          intro hek
          rw [hek, hk] at hp
          cases hp
        rw [mapLookup, if_neg hne]
        exact ih
      · exact hp
    · rw [List.filter_cons_of_neg]
      · exact ih
      · simp [hp]

theorem mapLookup_clearPending (pending : List (String × List Nat))
    (token cap : String) :
    mapLookup (AuditManager.clearPendingHandlers pending token)
      (token ++ ":" ++ cap) = none := by
  have hk : (! strHasPre (token ++ ":") (token ++ ":" ++ cap)) = false := by
    rw [strHasPre_append (token ++ ":") cap]
    rfl
  exact mapLookup_filter_key_none
    (fun s => ! strHasPre (token ++ ":") s) pending _ hk

/-- C1: in any reachable AuditManager state, calling a capability that is
not in the session's allow-list rejects with the distinguished
policy-denied error, invokes no handler (so a side-effect flag the handler
would set stays unset), leaves every session's event chain untouched, and
the handler just enqueued on the (token, capability) pending queue is
removed again without being run. -/
theorem callCapability_policy_denied (hf : HashFn) (sg : SignFn)
    (henv : Nat → Except Nat Nat) (ops : List AOp) (token cap : String)
    (payload hid : Nat) (rt : RtState)
    (hs : mapLookup (runOps hf sg henv ops).sessions token = some rt)
    (hdeny : cap ∉ rt.allowList) :
    (AuditManager.callCapability hf henv (runOps hf sg henv ops)
      token cap payload hid).1 = .error .policyDenied ∧
    (AuditManager.callCapability hf henv (runOps hf sg henv ops)
      token cap payload hid).2.2 = [] ∧
    (AuditManager.callCapability hf henv (runOps hf sg henv ops)
      token cap payload hid).2.1.sessions = (runOps hf sg henv ops).sessions ∧
    mapLookup (AuditManager.callCapability hf henv (runOps hf sg henv ops)
      token cap payload hid).2.1.pending (token ++ ":" ++ cap) = some [] := by
  have hq0 : (mapLookup (runOps hf sg henv ops).pending
      (token ++ ":" ++ cap)).getD [] = [] :=
    pendingEmpty_getD _ (auditInv_runOps hf sg henv ops).1 _
  simp only [AuditManager.callCapability, hs, hq0, List.nil_append]
  rw [if_neg hdeny]
  refine ⟨rfl, rfl, rfl, ?_⟩
  exact mapLookup_mapSet_self _ _ _

/-- Concrete hash, signature and handler environments for the audit
witnesses: a constant hash, a constant signature, handlers returning their
own id. -/
def hfZero : HashFn := fun _ _ _ _ => 0

def sgZero : SignFn := fun _ => 0

def henvOk : Nat → Except Nat Nat := fun h => .ok h

/-- A session started with allow-list consisting of search only. -/
def opsW : List AOp := [AOp.start "t" ["search"]]

/-- Witness for C1: calling checkout on the search-only session is denied
and runs no handler. -/
theorem callCapability_policy_denied_witness :
    (mapLookup (runOps hfZero sgZero henvOk opsW).sessions "t" =
       some (RtState.mk ["search"] [RtEvent.mk .runStarted "" 0 0 none]) ∧
     "checkout" ∉ (RtState.mk ["search"]
       [RtEvent.mk .runStarted "" 0 0 none]).allowList) ∧
    ((AuditManager.callCapability hfZero henvOk (runOps hfZero sgZero henvOk opsW)
       "t" "checkout" 3 7).1 = .error .policyDenied ∧
     (AuditManager.callCapability hfZero henvOk (runOps hfZero sgZero henvOk opsW)
       "t" "checkout" 3 7).2.2 = []) :=
  ⟨⟨by rfl, by decide⟩, by
    have h := callCapability_policy_denied hfZero sgZero henvOk opsW "t" "checkout"
      3 7 (RtState.mk ["search"] [RtEvent.mk .runStarted "" 0 0 none])
      (by rfl) (by decide)
    exact ⟨h.1, h.2.1⟩⟩

/-- C3: every artifact returned by endSession on a reachable state, and
every artifact retrieved by getArtifact, is hash-chained: the first event's
parent hash is null, and for every i > 0 the i-th event's parent hash
equals the content hash of the (i-1)-th event. -/
theorem artifact_hash_chain (hf : HashFn) (sg : SignFn)
    (henv : Nat → Except Nat Nat) (ops : List AOp) (token : String) :
    (∀ a, (AuditManager.endSession hf sg (runOps hf sg henv ops) token).1 = some a →
       HashChainOk a.events) ∧
    (∀ a, AuditManager.getArtifact (runOps hf sg henv ops) token = some a →
       HashChainOk a.events) := by
  have hinv := auditInv_runOps hf sg henv ops
  constructor
  · intro a ha
    cases hl : mapLookup (runOps hf sg henv ops).sessions token with
    | none =>
      simp only [AuditManager.endSession, hl] at ha
      cases ha
    | some rt =>
      simp only [AuditManager.endSession, hl] at ha
      obtain rfl := Option.some.inj ha
      exact chained_hashChainOk hf _ (chained_appendEvent hf rt.events
        (hinv.2.1 token rt hl) .runEnded "" 0)
  · intro a ha
    exact chained_hashChainOk hf a.events (hinv.2.2 token a ha)

/-- A session with one audited search call, and the artifact its sealing
produces. -/
def opsW2 : List AOp := [AOp.start "t" ["search"], AOp.call "t" "search" 5 1]

def artifactW : AuditArtifact :=
  ((AuditManager.endSession hfZero sgZero
    (runOps hfZero sgZero henvOk opsW2) "t").1).getD (AuditArtifact.mk [] 0)

/-- Witness for C3: the artifact sealed after one audited search call is
hash-chained. -/
theorem artifact_hash_chain_witness :
    (AuditManager.endSession hfZero sgZero
      (runOps hfZero sgZero henvOk opsW2) "t").1 = some artifactW ∧
    HashChainOk artifactW.events :=
  ⟨by rfl, (artifact_hash_chain hfZero sgZero henvOk opsW2 "t").1 artifactW (by rfl)⟩

/-- C7: endSession on a token with an active session seals it — it appends
the RunEnded event, attaches the chain-level signature, stores the artifact
where a subsequent getArtifact finds it, deletes the live session, purges
every pending queue of the token — and returns the artifact; on a token
with no active session it returns null and leaves the state unchanged.
getArtifact is the pure lookup into the artifact store and touches no
state. -/
theorem endSession_spec (hf : HashFn) (sg : SignFn) (am : AuditManager)
    (token : String) :
    (mapLookup am.sessions token = none →
       AuditManager.endSession hf sg am token = (none, am)) ∧
    (∀ rt, mapLookup am.sessions token = some rt →
       AuditManager.endSession hf sg am token =
         (some (AuditArtifact.mk (appendEvent hf rt.events .runEnded "" 0)
            (sg (appendEvent hf rt.events .runEnded "" 0))),
          AuditManager.mk (mapDelete am.sessions token)
            (mapSet am.artifacts token
              (AuditArtifact.mk (appendEvent hf rt.events .runEnded "" 0)
                (sg (appendEvent hf rt.events .runEnded "" 0))))
            (AuditManager.clearPendingHandlers am.pending token)) ∧
       AuditManager.getArtifact (AuditManager.endSession hf sg am token).2 token =
         some (AuditArtifact.mk (appendEvent hf rt.events .runEnded "" 0)
           (sg (appendEvent hf rt.events .runEnded "" 0))) ∧
       mapLookup (AuditManager.endSession hf sg am token).2.sessions token = none ∧
       (∀ cap, mapLookup (AuditManager.endSession hf sg am token).2.pending
         (token ++ ":" ++ cap) = none)) ∧
    (∀ t, AuditManager.getArtifact am t = mapLookup am.artifacts t) := by
  refine ⟨?_, ?_, ?_⟩
  · intro h
    simp [AuditManager.endSession, h]
  · intro rt hl
    refine ⟨?_, ?_, ?_, ?_⟩
    · simp only [AuditManager.endSession, hl]
    · simp only [AuditManager.endSession, hl, AuditManager.getArtifact]
      exact mapLookup_mapSet_self _ _ _
    · simp only [AuditManager.endSession, hl]
      exact mapLookup_mapDelete_self _ _
    · intro cap
      simp only [AuditManager.endSession, hl]
      exact mapLookup_clearPending am.pending token cap
  · intro t
    rfl

/-- The runtime state reached after one audited search call. -/
def rtW : RtState :=
  (mapLookup (runOps hfZero sgZero henvOk opsW2).sessions "t").getD
    (RtState.mk [] [])

/-- Witness for C7: sealing the one-call session deletes its live entry
and leaves no pending queue for the token. -/
theorem endSession_spec_witness :
    mapLookup (runOps hfZero sgZero henvOk opsW2).sessions "t" = some rtW ∧
    (mapLookup (AuditManager.endSession hfZero sgZero
       (runOps hfZero sgZero henvOk opsW2) "t").2.sessions "t" = none ∧
     ∀ cap, mapLookup (AuditManager.endSession hfZero sgZero
       (runOps hfZero sgZero henvOk opsW2) "t").2.pending ("t" ++ ":" ++ cap) = none) :=
  ⟨by rfl,
   ⟨((endSession_spec hfZero sgZero (runOps hfZero sgZero henvOk opsW2) "t").2.1 rtW
       (by rfl)).2.2.1,
    ((endSession_spec hfZero sgZero (runOps hfZero sgZero henvOk opsW2) "t").2.1 rtW
       (by rfl)).2.2.2⟩⟩

/-- C8: with no active audit session entry for the token, callCapability
executes the supplied handler directly and returns exactly its result, for
any capability whatsoever — no policy check, no event, no pending-queue
entry; the whole state is unchanged and the handler runs exactly once. -/
theorem callCapability_no_session (hf : HashFn) (henv : Nat → Except Nat Nat)
    (am : AuditManager) (token cap : String) (payload hid : Nat)
    (hnone : mapLookup am.sessions token = none) :
    AuditManager.callCapability hf henv am token cap payload hid =
      ((match henv hid with
        | .ok v => .ok v
        | .error v => .error (.handlerFailed v)), am, [hid]) := by
  simp only [AuditManager.callCapability, hnone]
  cases henv hid <;> rfl

/-- Witness for C8: on the empty manager, the handler result is returned
unchanged and the state is untouched. -/
theorem callCapability_no_session_witness :
    mapLookup initAudit.sessions "t" = none ∧
    AuditManager.callCapability hfZero henvOk initAudit "t" "search" 0 7 =
      (.ok 7, initAudit, [7]) :=
  ⟨rfl, by
    rw [callCapability_no_session hfZero henvOk initAudit "t" "search" 0 7 rfl]
    rfl⟩

/-- Per-key view of the pending-handler handoff of callCapability: the
queue of not-yet-executed handler ids for one (token, capability) key, and,
for each Called event logged for that key in order, the handler id the
executor dequeued and ran to satisfy it (none when the queue was empty at
that point, in which case the executor runs nothing and returns an empty
result). -/
structure KeyTrace where
  queue : List Nat
  calledSat : List (Option Nat)
deriving DecidableEq

/-- The queue-affecting steps of callCapability cycles on one key: push is
the enqueue (audit.ts line 157); execute is the runtime executor logging a
Called event and shifting one handler to run (audit.ts lines 107-116);
catchShift is the catch block shifting the queue head without running it
(audit.ts lines 165-172), which runs on policy denial and equally after a
handler throw propagates out of callTool. -/
inductive QStep where
  | push (h : Nat)
  | execute
  | catchShift
deriving DecidableEq

def qstep : KeyTrace → QStep → KeyTrace
  | st, .push h => KeyTrace.mk (st.queue ++ [h]) st.calledSat
  | st, .execute => KeyTrace.mk st.queue.tail (st.calledSat ++ [st.queue.head?])
  | st, .catchShift => KeyTrace.mk st.queue.tail st.calledSat

def runQ (steps : List QStep) : KeyTrace :=
  steps.foldl qstep (KeyTrace.mk [] [])

/-- C2 fails on the code: two overlapping calls on the same (session,
capability) key where the first call's handler throws.  Call A pushes
handler 1, call B pushes handler 2; A's executor dequeues and runs handler
1, which throws; the error propagates out of callTool and A's catch block
shifts handler 2 off the queue without running it; B's executor then finds
the queue empty, so B's Called event is satisfied by no handler at all —
not by handler 2, the second handler enqueued, as the claim requires. -/
theorem pending_queue_order_bug :
    runQ [QStep.push 1, QStep.push 2, QStep.execute, QStep.catchShift,
      QStep.execute] = KeyTrace.mk [] [some 1, none] ∧
    KeyTrace.mk ([] : List Nat) [some 1, none] ≠ KeyTrace.mk [] [some 1, some 2] :=
  ⟨by rfl, by decide⟩

end AgentsProtocol
